import Mathlib

/-!
Verification development for the rauta IRC server.

Shallow embedding of the core pure algorithms of the code base:

* `src/client_io.rs`   - the `MessageReader` line framer (512-byte limit, resync)
* `src/message_handler/cap.rs` - the CAP END registration transition
* `src/user.rs`        - `HostMask::matches` wildcard matcher
* `src/channel/mod.rs` - `ChannelMode`, `modes_do` mode-string parser
* `src/protocol/message.rs` - `Message::init` line parser
* `src/client.rs`      - `push_tail` / `build_msg` encoder and `ClientId::new`
* `src/channel/channel.rs` and `src/message_handler/join.rs` - channel state and join

Bytes are modelled as `Nat` values (the code only compares them with fixed
ASCII constants and appends them to buffers).
-/

set_option autoImplicit false

namespace Rauta

/-! ### Line framer (`MessageReader` in `src/client_io.rs`)

State of the reader besides the ring buffer: the in-progress `message`
accumulator, the `error` resync flag and the pending carriage-return flag
`got_r`.  The ring buffer itself is modelled as the list of not yet consumed
bytes, passed around explicitly. -/

inductive MessageError where
  | messageTooLong
  | malformedMessage
  deriving DecidableEq, Repr

structure ReaderState where
  message : List Nat
  error : Bool
  gotR : Bool
  deriving DecidableEq, Repr

/-- Fresh reader as constructed by `MessageReader::new`. -/
def ReaderState.init : ReaderState := { message := [], error := false, gotR := false }

/-- The scan loop of `MessageReader::clear_error`: walks the buffered bytes with
a local `got_r` flag, returning whether a `\r` ... `\n` separator was found
together with the final value of the index `i` used for `advance(i + 1)`.
The parameter `j` is the running byte index of the Rust enumeration. -/
def ceLoop : List Nat → Nat → Nat → Bool → Bool × Nat
  | [], _, i, _ => (false, i)
  | b :: rest, j, i, gotR =>
    if b = 13 then ceLoop rest (j + 1) (j + 1) true
    else if b = 10 then
      if gotR then (true, i) else ceLoop rest (j + 1) i gotR
    else ceLoop rest (j + 1) j gotR

/-- `MessageReader::clear_error`: while in the error state, consume bytes up to
a message separator; on success clear the `error` and `got_r` flags.  Returns
the updated state and the not yet consumed rest of the buffer
(`advance` clamps at the end of the buffer, which `List.drop` also does). -/
def clearError (s : ReaderState) (buf : List Nat) : ReaderState × List Nat :=
  if s.error then
    if (ceLoop buf 0 0 false).1 then
      ({ s with error := false, gotR := false }, buf.drop ((ceLoop buf 0 0 false).2 + 1))
    else (s, buf.drop ((ceLoop buf 0 0 false).2 + 1))
  else (s, buf)

inductive ScanEnd where
  | complete
  | fail (e : MessageError)
  deriving DecidableEq, Repr

/-- The byte loop of `MessageReader::next` (`Iterator::next`): processes buffered
bytes against the capacity-bounded accumulator.  Returns the loop outcome
(`none` = buffer exhausted, `Ok(None)` in the Rust code), the number of bytes
consumed by `advance(i + 1)`, the final accumulator and the final `got_r`. -/
def scanLoop (cap : Nat) : List Nat → List Nat → Bool → Option ScanEnd × Nat × List Nat × Bool
  | [], msg, gotR => (none, 0, msg, gotR)
  | b :: rest, msg, gotR =>
    if b = 13 then
      ((scanLoop cap rest msg true).1, (scanLoop cap rest msg true).2.1 + 1,
        (scanLoop cap rest msg true).2.2)
    else if b = 10 then
      if gotR then (some .complete, 1, msg, false)
      else (some (.fail .malformedMessage), 1, msg, gotR)
    else if b = 0 then (some (.fail .malformedMessage), 1, msg, gotR)
    else
      if (msg ++ [b]).length < cap then
        ((scanLoop cap rest (msg ++ [b]) gotR).1, (scanLoop cap rest (msg ++ [b]) gotR).2.1 + 1,
          (scanLoop cap rest (msg ++ [b]) gotR).2.2)
      else (some (.fail .messageTooLong), 1, msg ++ [b], gotR)

/-- One call of `MessageReader::next`: clear a pending error state, then scan.
Returns the produced item (`none` ends the drain loop), the new reader state
and the rest of the buffer. -/
def nextMessage (cap : Nat) (s : ReaderState) (buf : List Nat) :
    Option (Except MessageError (List Nat)) × ReaderState × List Nat :=
  match clearError s buf with
  | (s1, buf1) =>
    match scanLoop cap buf1 s1.message s1.gotR with
    | (none, n, msg', gotR') =>
        (none, { s1 with message := msg', gotR := gotR' }, buf1.drop n)
    | (some .complete, n, msg', gotR') =>
        (some (.ok msg'), { s1 with message := [], gotR := gotR' }, buf1.drop n)
    | (some (.fail e), n, _, gotR') =>
        (some (.error e), { s1 with message := [], gotR := gotR', error := true }, buf1.drop n)

/-- The drain loop of `Worker::readable`: `for message in reader` keeps calling
`next` until it returns `None`.  Fuel-indexed; `drainFrom` supplies enough
fuel since every produced item consumes at least one byte. -/
def drainGo (cap : Nat) : Nat → ReaderState → List Nat → List (Except MessageError (List Nat))
  | 0, _, _ => []
  | fuel + 1, s, buf =>
    match nextMessage cap s buf with
    | (none, _, _) => []
    | (some r, s', buf') => r :: drainGo cap fuel s' buf'

/-- All items produced from reader state `s` after the bytes `buf` are fed. -/
def drainFrom (cap : Nat) (s : ReaderState) (buf : List Nat) :
    List (Except MessageError (List Nat)) :=
  drainGo cap (buf.length + 1) s buf

/-- The completed lines among the produced items. -/
def okLines (out : List (Except MessageError (List Nat))) : List (List Nat) :=
  out.filterMap fun r => match r with | .ok l => some l | .error _ => none

example : drainFrom 512 ReaderState.init [104, 105, 13, 10] = [.ok [104, 105]] := rfl
example : drainFrom 512 ReaderState.init [104, 10, 97, 13, 10, 98, 13, 10] =
    [.error .malformedMessage, .ok [98]] := rfl

/-! ### Registration status machine (`src/user.rs`, `src/message_handler/cap.rs`) -/

/-- `user::Status`.  The Rust `Negotiating` variant carries a reference to one
of the static status constants; here the previous status is held by value. -/
inductive Status where
  | disconnected
  | connected
  | nickRegistered
  | nameRegistered
  | negotiating (prev : Status)
  | registered
  deriving DecidableEq, Repr

/-- `continue_registration` in `src/message_handler/cap.rs`, invoked by CAP END.
Returns the status after the call and whether `server.register` (the one-time
welcome sequence) is triggered; `none` models the `unreachable!` panic for
`Negotiating(&Disconnected)`.  The catch-all arm of the Rust `match` leaves the
status untouched and returns `false`. -/
def continueRegistration : Status → Option (Status × Bool)
  | .negotiating .nickRegistered => some (.nickRegistered, false)
  | .negotiating .nameRegistered => some (.nameRegistered, false)
  | .negotiating .connected => some (.connected, false)
  | .negotiating .registered => some (.registered, true)
  | .negotiating .disconnected => none
  | s => some (s, false)

example : continueRegistration (.negotiating .registered) = some (.registered, true) := by decide
example : continueRegistration .registered = some (.registered, false) := by decide

/-! ### Host mask matcher (`HostMask::matches` in `src/user.rs`) -/

/-- The inner skip loop of `HostMask::matches`: after a `*`, input characters
are consumed while the peeked character differs from the next literal mask
character; the loop also stops when the input is exhausted. -/
def dropUntil (next : Char) : List Char → List Char
  | [] => []
  | c :: cs => if c = next then c :: cs else dropUntil next cs

/-- The main loop of `HostMask::matches`: `pat` is the stored mask pattern,
`input` the `nick!user@host` string being tested.  A `*` with no following
pattern character matches the whole rest; when the pattern is exhausted the
input must be exhausted too. -/
def maskRun : List Char → List Char → Bool
  | [], input => input.isEmpty
  | c :: ps, input =>
    if c = '*' then
      match ps with
      | [] => true
      | next :: _ => maskRun ps (dropUntil next input)
    else
      match input with
      | [] => false
      | x :: xs => if c = x then maskRun ps xs else false

/-- `HostMask::matches self mask` with `self.mask` the pattern. -/
def hostMaskMatches (pattern input : String) : Bool :=
  maskRun pattern.toList input.toList

example : hostMaskMatches "*!*@*.com" "a!b@example.com" = true := by decide
example : hostMaskMatches "*!*@*.com" "a!b@example.org" = false := by decide
example : hostMaskMatches "*!*@*.com" "*!*@*.edu" = false := by decide
example : hostMaskMatches "*!*@*.com" "*!*@*.cop" = false := by decide
example : hostMaskMatches "*!*@*.com" "*!*@*.coma" = false := by decide
example : hostMaskMatches "*!*@example.com" "a!b@example.com" = true := by decide
example : hostMaskMatches "foo!*@*.com" "foo!bar@example.com" = true := by decide
example : hostMaskMatches "foo!*@*.com" "baz!bar@example.com" = false := by decide
example : hostMaskMatches "*!bar@*.com" "foo!bar@example.com" = true := by decide
example : hostMaskMatches "*!bar@*.com" "foo!baz@example.com" = false := by decide

/-! ### Channel modes and the mode-string parser (`src/channel/mod.rs`) -/

/-- `ChannelMode`; each variant corresponds to one mode letter. -/
inductive ChannelMode where
  | channelCreator
  | operatorPrivilege
  | voicePrivilege
  | anonChannel
  | inviteOnly
  | moderated
  | memberOnly
  | quiet
  | privateChan
  | secret
  | reOpFlag
  | topicProtect
  | channelKey
  | userLimit
  | banMask
  | exceptionMask
  | invitationMask
  deriving DecidableEq, Repr

/-- The discriminator of each `ChannelMode` variant (its ASCII mode letter),
as declared by `enum_from_primitive!`. -/
def ChannelMode.letter : ChannelMode → Nat
  | .channelCreator => 79
  | .operatorPrivilege => 111
  | .voicePrivilege => 118
  | .anonChannel => 97
  | .inviteOnly => 105
  | .moderated => 109
  | .memberOnly => 110
  | .quiet => 113
  | .privateChan => 112
  | .secret => 115
  | .reOpFlag => 114
  | .topicProtect => 116
  | .channelKey => 107
  | .userLimit => 108
  | .banMask => 98
  | .exceptionMask => 101
  | .invitationMask => 73

/-- `FromPrimitive::from_u8` generated by `enum_from_primitive!`: the byte is
compared against each discriminator in declaration order. -/
def channelModeFromByte (b : Nat) : Option ChannelMode :=
  if b = 79 then some .channelCreator
  else if b = 111 then some .operatorPrivilege
  else if b = 118 then some .voicePrivilege
  else if b = 97 then some .anonChannel
  else if b = 105 then some .inviteOnly
  else if b = 109 then some .moderated
  else if b = 110 then some .memberOnly
  else if b = 113 then some .quiet
  else if b = 112 then some .privateChan
  else if b = 115 then some .secret
  else if b = 114 then some .reOpFlag
  else if b = 116 then some .topicProtect
  else if b = 107 then some .channelKey
  else if b = 108 then some .userLimit
  else if b = 98 then some .banMask
  else if b = 101 then some .exceptionMask
  else if b = 73 then some .invitationMask
  else none

/-- `Action` of a mode letter. -/
inductive Action where
  | add
  | remove
  | show
  deriving DecidableEq, Repr

/-- `ChannelMode::has_parameter`. -/
def ChannelMode.hasParam : ChannelMode → Bool
  | .channelKey | .userLimit | .banMask
  | .exceptionMask | .invitationMask
  | .operatorPrivilege | .voicePrivilege => true
  | _ => false

/-- Inner `for mode in ...` loop of `modes_do`: processes the recognized mode
letters of one parameter token, consuming a further parameter from `params`
for each parametrized mode unless the action is `Show`. -/
def modesLetters (action : Action) :
    List ChannelMode → List (List Nat) →
    List (Action × ChannelMode × Option (List Nat)) × List (List Nat)
  | [], params => ([], params)
  | m :: ms, params =>
    if m.hasParam && action ≠ Action.show then
      match params with
      | p :: rest =>
        let r := modesLetters action ms rest
        ((action, m, some p) :: r.1, r.2)
      | [] =>
        let r := modesLetters action ms []
        ((action, m, none) :: r.1, r.2)
    else
      let r := modesLetters action ms params
      ((action, m, none) :: r.1, r.2)

/-- `modes_do` in `src/channel/mod.rs`: repeatedly takes a parameter token,
reads its `+`/`-` sign (no sign means `Show`) and dispatches its mode letters;
unknown letters are skipped by the `filter_map`.  The callback invocations are
collected into a list.  (In the Rust code an empty parameter token would panic
at `current[0]`; the message parser never produces empty parameters, and the
model lets an empty token contribute nothing.) -/
def modesDoGo : Nat → List (List Nat) → List (Action × ChannelMode × Option (List Nat))
  | _, [] => []
  | 0, _ :: _ => []
  | fuel + 1, current :: params =>
    let ao : Action × Nat :=
      match current.head? with
      | some 43 => (Action.add, 1)
      | some 45 => (Action.remove, 1)
      | _ => (Action.show, 0)
    let letters := (current.drop ao.2).filterMap channelModeFromByte
    let r := modesLetters ao.1 letters params
    r.1 ++ modesDoGo fuel r.2

/-- Wrapper supplying sufficient fuel: every round of the `while let` loop
consumes at least the token `current`, so `params.length` rounds suffice. -/
def modesDo (params : List (List Nat)) : List (Action × ChannelMode × Option (List Nat)) :=
  modesDoGo params.length params

/-! ### Message parser (`Message::init` in `src/protocol/message.rs`) -/

/-- The two `&'static str` parse errors of `Message::init`. -/
inductive ParseErr where
  | noCommand
  | nonAsciiCommand
  deriving DecidableEq, Repr

/-- A parsed message: the owned raw bytes plus byte ranges (start, end,
half-open) for the optional prefix, the command, and the parameters, exactly
as stored by the Rust `Message` struct. -/
structure PMessage where
  message : List Nat
  pfx : Option (Nat × Nat)
  cmd : Nat × Nat
  params : List (Nat × Nat)
  deriving DecidableEq, Repr

/-- `iter().position(|&v| v == b' ')`. -/
def posSpace : List Nat → Option Nat
  | [] => none
  | b :: rest => if b = 32 then some 0 else (posSpace rest).map (· + 1)

/-- `position(this, needle)`: index of the first complete window equal to
`needle` (the Rust helper built on `windows`). -/
def findSub (needle : List Nat) : List Nat → Option Nat
  | [] => none
  | b :: rest =>
    if needle.isPrefixOf (b :: rest) then some 0
    else (findSub needle rest).map (· + 1)

/-- `slice.split(|&x| x == b' ')`: always yields at least one (possibly empty)
piece. -/
def splitSpace : List Nat → List (List Nat)
  | [] => [[]]
  | b :: rest =>
    if b = 32 then [] :: splitSpace rest
    else
      match splitSpace rest with
      | h :: t => (b :: h) :: t
      | [] => [[b]]

/-- `<[u8]>::is_ascii`. -/
def isAsciiBytes (l : List Nat) : Bool := l.all (· < 128)

/-- The parameter loop of `Message::init`: `start` begins one past the command
range and each non-empty middle parameter is pushed with its byte range. -/
def paramRanges (start : Nat) : List (List Nat) → List (Nat × Nat)
  | [] => []
  | p :: rest =>
    let r := (start, start + p.length)
    let tail := paramRanges (r.2 + 1) rest
    if r.1 ≠ r.2 then r :: tail else tail

/-- The tail of `Message::init` after tags and prefix are handled: find the
trailing parameter via the first `" :"`, split the middle part on spaces,
validate the command as ASCII, and collect the parameter ranges.  `msg0` is
the whole raw line, `pfx` the stored prefix range, `m2` the slice after the
prefix block. -/
def parseCore (msg0 : List Nat) (pfx : Option (Nat × Nat)) (m2 : List Nat) :
    Except ParseErr PMessage :=
  let cmdStart : Nat := match pfx with | some r => r.2 + 1 | none => 0
  let s3 : Option (Nat × Nat) × List Nat :=
    match findSub [32, 58] m2 with
    | some tp => (some (cmdStart + tp + 2, msg0.length), m2.take tp)
    | none => (none, m2)
  match splitSpace s3.2 with
  | [] => Except.error ParseErr.noCommand
  | c :: rest =>
    if isAsciiBytes c then
      let ps := paramRanges (cmdStart + c.length + 1) rest
      let ps := match s3.1 with | some r => ps ++ [r] | none => ps
      Except.ok { message := msg0, pfx := pfx, cmd := (cmdStart, cmdStart + c.length),
                  params := ps }
    else Except.error ParseErr.nonAsciiCommand

/-- The `:prefix ` block handling of `Message::init`: `m1` is the slice after
the tags block, `prefixStart` its offset in the raw line. -/
def parseAfterTags (msg0 : List Nat) (prefixStart : Nat) (m1 : List Nat) :
    Except ParseErr PMessage :=
  if m1.take 1 = [58] then
    match posSpace m1 with
    | some v =>
        parseCore msg0 (some (prefixStart + 1, prefixStart + v)) (m1.drop (v + 1))
    | none => Except.error ParseErr.noCommand
  else parseCore msg0 none m1

/-- `Message::new` / `Message::init`: parse a raw line into prefix, command and
parameter ranges.  Mirrors the Rust control flow: optional `@tags ` block
(consumed, not stored), optional `:prefix ` block, trailing parameter
introduced by the first `" :"`, space-separated middles with empty ones
dropped, ASCII validation of the command. -/
def parseMessage (msg0 : List Nat) : Except ParseErr PMessage :=
  if msg0.take 1 = [64] then
    match posSpace msg0 with
    | some v => parseAfterTags msg0 (v + 1) (msg0.drop (v + 1))
    | none => Except.error ParseErr.noCommand
  else parseAfterTags msg0 0 msg0

/-- `&message[range]` for a stored byte range. -/
def sliceR (msg : List Nat) (r : Nat × Nat) : List Nat := (msg.drop r.1).take (r.2 - r.1)

/-- `Message::prefix`. -/
def pfxBytes (m : PMessage) : Option (List Nat) := m.pfx.map (sliceR m.message)

/-- `Message::command_bytes`. -/
def cmdBytes (m : PMessage) : List Nat := sliceR m.message m.cmd

/-- The parameter byte slices yielded by the `Params` iterator. -/
def paramsBytes (m : PMessage) : List (List Nat) := m.params.map (sliceR m.message)

/-- Byte list of a string literal (all source strings are ASCII). -/
def strBytes (s : String) : List Nat := s.toList.map Char.toNat

example : parseMessage (strBytes "@tag :prefix JOIN #channel") =
    Except.ok { message := strBytes "@tag :prefix JOIN #channel",
                pfx := some (6, 12), cmd := (13, 17), params := [(18, 26)] } := rfl
example : (parseMessage (strBytes "@tag :prefix JOIN #channel")).map pfxBytes =
    Except.ok (some (strBytes "prefix")) := rfl
example : (parseMessage (strBytes "MODE #bu b")).map paramsBytes =
    Except.ok [strBytes "#bu", strBytes "b"] := rfl

/-! ### Message encoder (`push_tail` / `build_msg` in `src/client.rs`) -/

/-- The serialization of the payload by `Client::push_tail`: every parameter
except the last is preceded by one space, the last by `" :"`. -/
def tailSer : List (List Nat) → List Nat
  | [] => []
  | [last] => 32 :: 58 :: last
  | item :: rest => 32 :: item ++ tailSer rest

/-- `Client::push_tail`. -/
def pushTail (msg : List Nat) (payload : List (List Nat)) : List Nat := msg ++ tailSer payload

/-- `Client::build_msg`: `":{prefix} {cmd}"` followed by the payload tail. -/
def buildMsg (origin cmd : List Nat) (payload : List (List Nat)) : List Nat :=
  pushTail (58 :: origin ++ 32 :: cmd) payload

/-- Re-serialization of a parsed message: encode its parsed prefix, command
and parameter list back to a wire line via the `build_msg` scheme. -/
def encodeParsed (m : PMessage) : List Nat :=
  buildMsg ((pfxBytes m).getD []) (cmdBytes m) (paramsBytes m)

example : buildMsg (strBytes "a") (strBytes "JOIN") [strBytes "#c"] = strBytes ":a JOIN :#c" := rfl

example : (parseMessage (strBytes "MODE &oulu +b *!*@*.edu +e *!*@*.bu.edu")).map
    (fun m => modesDo ((paramsBytes m).drop 1)) =
  Except.ok [(Action.add, ChannelMode.banMask, some (strBytes "*!*@*.edu")),
             (Action.add, ChannelMode.exceptionMask, some (strBytes "*!*@*.bu.edu"))] := rfl
example : (parseMessage (strBytes "MODE #test -oo Guest")).map
    (fun m => modesDo ((paramsBytes m).drop 1)) =
  Except.ok [(Action.remove, ChannelMode.operatorPrivilege, some (strBytes "Guest")),
             (Action.remove, ChannelMode.operatorPrivilege, none)] := rfl
example : (parseMessage (strBytes "MODE #bu +g")).map
    (fun m => modesDo ((paramsBytes m).drop 1)) = Except.ok [] := rfl

/-! ### Client identifiers (`ClientId::new` in `src/client.rs`) -/

/-- Socket addresses as matched by `ClientId::new`: IPv4 octets or the last
two 16-bit segments of an IPv6 address (the others are ignored by the code). -/
inductive IpAddr where
  | v4 (a b c d : Nat)
  | v6 (g h : Nat)
  deriving DecidableEq, Repr

structure SocketAddr where
  ip : IpAddr
  port : Nat
  deriving DecidableEq, Repr

/-- The `u32` built from an address by `ClientId::new`.  The octets and
segments are machine integers (`u8` / `u16`); the explicit remainders model
their ranges. -/
def ipBits : IpAddr → Nat
  | .v4 a b c d => (a % 256) * 2 ^ 24 + (b % 256) * 2 ^ 16 + (c % 256) * 2 ^ 8 + d % 256
  | .v6 g h => (g % 65536) * 65536 + h % 65536

/-- `ClientId`: two `u64` words. -/
structure ClientId where
  word0 : Nat
  word1 : Nat
  deriving DecidableEq, Repr

/-- `ClientId::new`: the first word packs the local IP (high half) and the
peer IP (low half); the second word is the literal `42` (the call to
`random()` is commented out in the source).  The ports of both addresses are
not used. -/
def clientIdNew (localAddr peerAddr : SocketAddr) : ClientId :=
  { word0 := ipBits localAddr.ip * 2 ^ 32 + ipBits peerAddr.ip, word1 := 42 }

/-! ### Channel state and join handling
(`src/channel/channel.rs`, `src/message_handler/join.rs`)

`HashSet`/`HashMap` fields are modelled as lists: sets insert only absent
elements, maps replace the value of a present key. -/

/-- `HashSet::insert`. -/
def setInsert {α : Type} [DecidableEq α] (l : List α) (a : α) : List α :=
  if a ∈ l then l else l ++ [a]

/-- Lookup in an association list (`HashMap::get`). -/
def assocLookup {κ ν : Type} [DecidableEq κ] : List (κ × ν) → κ → Option ν
  | [], _ => none
  | p :: rest, k => if p.1 = k then some p.2 else assocLookup rest k

/-- `HashMap::insert`: replaces the value of an existing key, otherwise adds
the pair. -/
def mapInsert {κ ν : Type} [DecidableEq κ] (l : List (κ × ν)) (k : κ) (v : ν) : List (κ × ν) :=
  if (assocLookup l k).isSome then l.map (fun p => if p.1 = k then (k, v) else p)
  else l ++ [(k, v)]

/-- A channel member (`src/channel/member.rs`): client id, nick, the real
hostmask captured from the client, and the per-channel privilege flags. -/
structure Member where
  id : ClientId
  nick : String
  mask : List Char
  flags : List ChannelMode
  deriving DecidableEq, Repr

/-- `Member::promote`. -/
def Member.promote (m : Member) (flag : ChannelMode) : Member :=
  { m with flags := setInsert m.flags flag }

/-- `Member::mask_matches_any`: whether any mask of the set matches the
member hostmask. -/
def maskMatchesAny (m : Member) (masks : List (List Char)) : Bool :=
  masks.any fun mask => maskRun mask m.mask

/-- The channel state owned by the channel actor (`struct Channel`). -/
structure Channel where
  name : String
  topic : String
  password : Option (List Nat)
  flags : List ChannelMode
  limit : Option Nat
  members : List (String × Member)
  inviteList : List ClientId
  nicknames : List (ClientId × String)
  banMasks : List (List Char)
  exceptMasks : List (List Char)
  inviteMasks : List (List Char)
  deriving DecidableEq, Repr

/-- `Channel::new`. -/
def Channel.new (name : String) : Channel :=
  { name := name, topic := "", password := none, flags := [], limit := none,
    members := [], inviteList := [], nicknames := [], banMasks := [],
    exceptMasks := [], inviteMasks := [] }

/-- `Channel::add_flag`. -/
def Channel.addFlag (ch : Channel) (flag : ChannelMode) : Channel :=
  { ch with flags := setInsert ch.flags flag }

/-- `Channel::has_flag`. -/
def Channel.hasFlag (ch : Channel) (flag : ChannelMode) : Bool := flag ∈ ch.flags

/-- `Channel::member_count`. -/
def Channel.memberCount (ch : Channel) : Nat := ch.members.length

/-- `Channel::member_with_id`: nickname index first, then the member map. -/
def Channel.memberWithId (ch : Channel) (id : ClientId) : Option Member :=
  match assocLookup ch.nicknames id with
  | some nick => assocLookup ch.members nick
  | none => none

/-- `Channel::is_invite_only`. -/
def Channel.isInviteOnly (ch : Channel) : Bool := ch.hasFlag .inviteOnly

/-- `Channel::is_invited`. -/
def Channel.isInvited (ch : Channel) (m : Member) : Bool :=
  m.id ∈ ch.inviteList || maskMatchesAny m ch.inviteMasks

/-- `Channel::remove_from_invite_list`. -/
def Channel.removeFromInviteList (ch : Channel) (id : ClientId) : Channel :=
  { ch with inviteList := ch.inviteList.filter (· ≠ id) }

/-- `Channel::add_member`. -/
def Channel.addMember (ch : Channel) (m : Member) : Bool × Channel :=
  if (ch.memberWithId m.id).isSome then (false, ch)
  else (true, { ch with nicknames := mapInsert ch.nicknames m.id m.nick,
                        members := mapInsert ch.members m.nick m })

/-- The channel constructed by `Handler::invoke` in
`src/message_handler/join.rs` when the joined channel does not exist yet:
`Channel::new` followed by `add_flag(TopicProtect)` and
`add_flag(MemberOnly)`, before any member is added. -/
def newChannelOnFirstJoin (name : String) : Channel :=
  ((Channel.new name).addFlag .topicProtect).addFlag .memberOnly

/-- Outcome of `handle_join` as observable from the outside: the error reply
sent to the client, a silent return for an existing member, or success. -/
inductive JoinOutcome where
  | rejected (code : Nat)
  | alreadyMember
  | joined
  deriving DecidableEq, Repr

/-- Numeric reply codes used by `handle_join`
(`src/protocol/response_codes.rs`). -/
def errBadChannelKey : Nat := 475
def errBannedFromChan : Nat := 474
def errInviteOnlyChan : Nat := 473
def errChannelIsFull : Nat := 471

/-- `handle_join` in `src/message_handler/join.rs`: password, membership, ban,
invite and user-limit checks in source order; on success the first member is
promoted to channel creator and operator, the invite-list entry is dropped and
the member is added. -/
def handleJoin (ch : Channel) (member : Member) (password : Option (List Nat)) :
    JoinOutcome × Channel :=
  if (match ch.password with
      | some chanPass => decide ¬(password = some chanPass)
      | none => false) then
    (.rejected errBadChannelKey, ch)
  else if (ch.memberWithId member.id).isSome then
    (.alreadyMember, ch)
  else if maskMatchesAny member ch.banMasks && !maskMatchesAny member ch.exceptMasks then
    (.rejected errBannedFromChan, ch)
  else if ch.isInviteOnly && !ch.isInvited member then
    (.rejected errInviteOnlyChan, ch)
  else if ch.hasFlag .userLimit &&
      (match ch.limit with
       | some limit => decide (ch.memberCount + 1 ≥ limit)
       | none => false) then
    (.rejected errChannelIsFull, ch)
  else
    let member := if ch.memberCount = 0 then
        (member.promote .channelCreator).promote .operatorPrivilege
      else member
    let ch := ch.removeFromInviteList member.id
    let ch := (ch.addMember member).2
    (.joined, ch)

/-- The concatenation of space-prefixed middle parameters, as they appear on a
wire line between the command and the trailing marker. -/
def midsJoin (mids : List (List Nat)) : List Nat := (mids.map (fun m => 32 :: m)).flatten

/-- A concrete full channel: user limit 0, no members, no other restrictions. -/
def fullChannel : Channel :=
  { name := "#full", topic := "", password := none, flags := [ChannelMode.userLimit],
    limit := some 0, members := [], inviteList := [], nicknames := [], banMasks := [],
    exceptMasks := [], inviteMasks := [] }

/-- A concrete member used to exercise `handleJoin`. -/
def someMember : Member :=
  { id := { word0 := 7, word1 := 42 }, nick := "alice",
    mask := "alice!a@host".toList, flags := [] }

end Rauta

namespace Rauta

/-! ## Theorems -/

/-- C2 (code bug evaluation): feed the bytes `\r X NUL \n \n`.  The NUL raises a
malformed-message error while `got_r` is still set from the initial `\r`; the
bytes after the error contain no `\r\n` pair, yet the reader emits a completed
(empty) line instead of discarding them, because the stale `got_r` flag
survives into resynchronization. -/
theorem C2_resync_emits_line_without_separator :
    drainFrom 512 ReaderState.init [13, 88, 0, 10, 10] =
      [Except.error MessageError.malformedMessage, Except.ok []] ∧
    okLines (drainFrom 512 ReaderState.init [13, 88, 0, 10, 10]) = [[]] :=
  ⟨rfl, rfl⟩

/-- C3: a CAP END call that triggered the welcome sequence (returned `true`)
left the status at `Registered`; a second CAP END is then a no-op: the status
is unchanged and the welcome sequence is not triggered again. -/
theorem C3_cap_end_idempotent (s s' : Status)
    (h : continueRegistration s = some (s', true)) :
    s' = Status.registered ∧ continueRegistration s' = some (s', false) := by
  cases s with
  | negotiating p =>
    cases p with
    | registered =>
      have hs : s' = Status.registered := by
        have := h
        simp [continueRegistration] at this
        exact this.symm
      subst hs
      exact ⟨rfl, rfl⟩
    | disconnected => simp [continueRegistration] at h
    | connected => simp [continueRegistration] at h
    | nickRegistered => simp [continueRegistration] at h
    | nameRegistered => simp [continueRegistration] at h
    | negotiating q => simp [continueRegistration] at h
  | disconnected => simp [continueRegistration] at h
  | connected => simp [continueRegistration] at h
  | nickRegistered => simp [continueRegistration] at h
  | nameRegistered => simp [continueRegistration] at h
  | registered => simp [continueRegistration] at h

/-- Witness for C3 at the concrete status `Negotiating(&Registered)`. -/
theorem C3_cap_end_idempotent_witness :
    Status.registered = Status.registered ∧
    continueRegistration Status.registered = some (Status.registered, false) :=
  C3_cap_end_idempotent (Status.negotiating Status.registered) Status.registered rfl

/-- C4: the mode parser applied to the parameters (after the channel name) of
`MODE #bu +be *!*@*.edu *!*@*.bu.edu` yields exactly the two Add entries with
their parameters, and applied to those of `MODE #bu b` yields exactly
`(Show, BanMask, None)` without consuming a parameter. -/
theorem C4_mode_parsing :
    (parseMessage (strBytes "MODE #bu +be *!*@*.edu *!*@*.bu.edu")).map
        (fun m => modesDo ((paramsBytes m).drop 1)) =
      Except.ok [(Action.add, ChannelMode.banMask, some (strBytes "*!*@*.edu")),
                 (Action.add, ChannelMode.exceptionMask, some (strBytes "*!*@*.bu.edu"))] ∧
    (parseMessage (strBytes "MODE #bu b")).map
        (fun m => modesDo ((paramsBytes m).drop 1)) =
      Except.ok [(Action.show, ChannelMode.banMask, none)] :=
  ⟨rfl, rfl⟩

/-- C5: `*!*@*.com` matches `a!b@example.com` and not `a!b@example.org`;
a mask ending in `*` matches, after its literal portion, any suffix of the
input including the empty one.  Comparison is exact (no case folding). -/
theorem C5_hostmask_matching :
    hostMaskMatches "*!*@*.com" "a!b@example.com" = true ∧
    hostMaskMatches "*!*@*.com" "a!b@example.org" = false ∧
    ∀ (lit s : List Char), '*' ∉ lit → maskRun (lit ++ ['*']) (lit ++ s) = true := by
  refine ⟨by decide, by decide, ?_⟩
  intro lit s h
  induction lit with
  | nil => simp [maskRun]
  | cons c cs ih =>
    have hc : c ≠ '*' := fun hc => h (hc ▸ List.mem_cons_self c cs)
    have hcs : '*' ∉ cs := fun hm => h (List.mem_cons_of_mem c hm)
    simpa [maskRun, hc] using ih hcs

/-- Witness for C5: the trailing-star clause at a concrete literal and suffix. -/
theorem C5_hostmask_matching_witness :
    maskRun ("ab".toList ++ ['*']) ("ab".toList ++ "cd".toList) = true :=
  C5_hostmask_matching.2.2 "ab".toList "cd".toList (by decide)

/-- C9 (code bug evaluation): `ClientId::new` uses only the local and peer IP
addresses and the constant `42` (the `random()` call is commented out), so two
simultaneously open connections that share both IPs (distinct ports) are given
identical ids, and the nonce word is always `42`. -/
theorem C9_client_id_collision :
    clientIdNew { ip := IpAddr.v4 127 0 0 1, port := 6667 }
        { ip := IpAddr.v4 127 0 0 1, port := 49152 } =
      clientIdNew { ip := IpAddr.v4 127 0 0 1, port := 6667 }
        { ip := IpAddr.v4 127 0 0 1, port := 49153 } ∧
    (clientIdNew { ip := IpAddr.v4 127 0 0 1, port := 6667 }
        { ip := IpAddr.v4 127 0 0 1, port := 49152 }).word1 = 42 :=
  ⟨rfl, rfl⟩

/-- C10: a channel created on first JOIN of a previously nonexistent name
carries exactly the TopicProtect and MemberOnly flags and nothing else: no
password, no limit, empty mask sets, no members, empty topic. -/
theorem C10_new_channel_initial_state (name : String) :
    (newChannelOnFirstJoin name).flags = [ChannelMode.topicProtect, ChannelMode.memberOnly] ∧
    (∀ f, (newChannelOnFirstJoin name).hasFlag f = true ↔
        (f = ChannelMode.topicProtect ∨ f = ChannelMode.memberOnly)) ∧
    (newChannelOnFirstJoin name).password = none ∧
    (newChannelOnFirstJoin name).limit = none ∧
    (newChannelOnFirstJoin name).banMasks = [] ∧
    (newChannelOnFirstJoin name).exceptMasks = [] ∧
    (newChannelOnFirstJoin name).inviteMasks = [] ∧
    (newChannelOnFirstJoin name).members = [] := by
  refine ⟨rfl, ?_, rfl, rfl, rfl, rfl, rfl, rfl⟩
  intro f
  cases f <;>
    simp [newChannelOnFirstJoin, Channel.new, Channel.addFlag, Channel.hasFlag, setInsert]

/-- C6: joining a channel whose user-limit flag is set with the limit equal to
the current member count is rejected with reply 471 and leaves the channel
state (in particular its membership) unchanged, for any client that passes the
key, membership, ban and invite checks. -/
theorem C6_join_limit_full (ch : Channel) (m : Member) (pw : Option (List Nat))
    (hlimflag : ch.hasFlag ChannelMode.userLimit = true)
    (hlim : ch.limit = some ch.memberCount)
    (hpw : (match ch.password with
            | some chanPass => decide ¬(pw = some chanPass)
            | none => false) = false)
    (hmem : ch.memberWithId m.id = none)
    (hban : (maskMatchesAny m ch.banMasks && !maskMatchesAny m ch.exceptMasks) = false)
    (hinv : (ch.isInviteOnly && !ch.isInvited m) = false) :
    handleJoin ch m pw = (JoinOutcome.rejected errChannelIsFull, ch) ∧
    errChannelIsFull = 471 := by
  have hfull : (match ch.limit with
      | some limit => decide (ch.memberCount + 1 ≥ limit)
      | none => false) = true := by
    rw [hlim]
    simp
  refine ⟨?_, rfl⟩
  unfold handleJoin
  rw [hpw, hmem, hban, hinv]
  simp [hlimflag, hfull]

/-- Witness for C6 at a concrete full channel. -/
theorem C6_join_limit_full_witness :
    handleJoin fullChannel someMember none =
      (JoinOutcome.rejected errChannelIsFull, fullChannel) ∧
    errChannelIsFull = 471 :=
  C6_join_limit_full fullChannel someMember none (by decide) (by decide) (by decide)
    (by decide) (by decide) (by decide)

/-- Helper: a byte list without a space has no space position. -/
theorem posSpace_none (l : List Nat) (h : 32 ∉ l) : posSpace l = none := by
  induction l with
  | nil => rfl
  | cons b rest ih =>
    have hb : b ≠ 32 := fun hb => h (hb ▸ List.mem_cons_self b rest)
    have hr : 32 ∉ rest := fun hm => h (List.mem_cons_of_mem b hm)
    simp [posSpace, hb, ih hr]

/-- C7 (counterexample): parsing the empty line succeeds — with an empty
command range — instead of returning an error. -/
theorem C7_empty_line_parses_ok :
    parseMessage [] = Except.ok { message := [], pfx := none, cmd := (0, 0), params := [] } :=
  rfl

/-- C7 (amended): parsing fails with `noCommand` exactly for an unterminated
tags block or an unterminated prefix block (no space after `@...` or `:...`);
the empty line itself parses successfully with an empty command. -/
theorem C7_no_command_error_characterization :
    (∀ l : List Nat, 32 ∉ l → parseMessage (64 :: l) = Except.error ParseErr.noCommand) ∧
    (∀ l : List Nat, 32 ∉ l → parseMessage (58 :: l) = Except.error ParseErr.noCommand) ∧
    parseMessage [] = Except.ok { message := [], pfx := none, cmd := (0, 0), params := [] } := by
  refine ⟨?_, ?_, rfl⟩
  · intro l h
    have h1 : posSpace (64 :: l) = none := by simp [posSpace, posSpace_none l h]
    unfold parseMessage
    rw [h1]
    simp
  · intro l h
    have h1 : posSpace (58 :: l) = none := by simp [posSpace, posSpace_none l h]
    have h2 : parseMessage (58 :: l) = parseAfterTags (58 :: l) 0 (58 :: l) := rfl
    rw [h2]
    unfold parseAfterTags
    rw [h1]
    simp

/-- Witness for C7 (amended) at a concrete unterminated tags block. -/
theorem C7_no_command_error_witness :
    parseMessage (64 :: [116, 97, 103]) = Except.error ParseErr.noCommand :=
  C7_no_command_error_characterization.1 [116, 97, 103] (by decide)

/-- Helper: `clear_error` never touches the accumulated message. -/
theorem clearError_message (s : ReaderState) (buf : List Nat) :
    (clearError s buf).1.message = s.message := by
  unfold clearError
  split
  · split <;> rfl
  · rfl

/-- Helper: the scan loop keeps the accumulator below the capacity whenever it
does not end in an error: each append is guarded by the capacity check. -/
theorem scanLoop_acc_bound (cap : Nat) (buf : List Nat) :
    ∀ (msg : List Nat) (g : Bool), msg.length < cap →
      ((scanLoop cap buf msg g).1 = none ∨ (scanLoop cap buf msg g).1 = some ScanEnd.complete) →
      (scanLoop cap buf msg g).2.2.1.length < cap := by
  induction buf with
  | nil =>
    intro msg g h _
    simpa [scanLoop] using h
  | cons b rest ih =>
    intro msg g h hres
    by_cases h13 : b = 13
    · simp only [scanLoop, if_pos h13] at hres ⊢
      exact ih msg true h hres
    · by_cases h10 : b = 10
      · cases g with
        | true =>
          simp only [scanLoop, if_neg h13, if_pos h10, if_pos rfl] at hres ⊢
          exact h
        | false => simp [scanLoop, h13, h10] at hres
      · by_cases h0 : b = 0
        · simp [scanLoop, h13, h10, h0] at hres
        · by_cases hlt : (msg ++ [b]).length < cap
          · simp only [scanLoop, if_neg h13, if_neg h10, if_neg h0, if_pos hlt] at hres ⊢
            exact ih (msg ++ [b]) g hlt hres
          · simp only [scanLoop, if_neg h13, if_neg h10, if_neg h0, if_neg hlt] at hres
            simp at hres

/-- Helper: one `next` call keeps the stored accumulator below the capacity
and only emits completed lines shorter than the capacity. -/
theorem nextMessage_bound (cap : Nat) (hcap : 0 < cap) (s : ReaderState) (buf : List Nat)
    (h : s.message.length < cap) :
    (nextMessage cap s buf).2.1.message.length < cap ∧
    (∀ l, (nextMessage cap s buf).1 = some (Except.ok l) → l.length < cap) := by
  have hm : (clearError s buf).1.message.length < cap := by
    rw [clearError_message]; exact h
  have hb := scanLoop_acc_bound cap (clearError s buf).2 (clearError s buf).1.message
    (clearError s buf).1.gotR hm
  rcases hc : clearError s buf with ⟨s1, buf1⟩
  rw [hc] at hm hb
  rcases hr : scanLoop cap buf1 s1.message s1.gotR with ⟨res, n, msg', g'⟩
  rw [hr] at hb
  cases res with
  | none =>
    simp only [nextMessage, hc, hr]
    exact ⟨hb (Or.inl rfl), fun l hl => by simp at hl⟩
  | some se =>
    cases se with
    | complete =>
      simp only [nextMessage, hc, hr]
      refine ⟨hcap, fun l hl => ?_⟩
      simp only [Option.some.injEq, Except.ok.injEq] at hl
      exact hl ▸ hb (Or.inr rfl)
    | fail e =>
      simp only [nextMessage, hc, hr]
      exact ⟨hcap, fun l hl => by simp at hl⟩

/-- Helper: every line produced by the drain loop stays below the capacity. -/
theorem drainGo_ok_bound (cap : Nat) (hcap : 0 < cap) :
    ∀ (fuel : Nat) (s : ReaderState) (buf : List Nat), s.message.length < cap →
      ∀ l ∈ okLines (drainGo cap fuel s buf), l.length < cap := by
  intro fuel
  induction fuel with
  | zero =>
    intro s buf h l hl
    simp [drainGo, okLines] at hl
  | succ n ih =>
    intro s buf h l hl
    have hb := nextMessage_bound cap hcap s buf h
    rcases hn : nextMessage cap s buf with ⟨res, s', buf'⟩
    rw [hn] at hb
    cases res with
    | none => simp [drainGo, hn, okLines] at hl
    | some r =>
      simp only [drainGo, hn] at hl
      cases r with
      | ok l0 =>
        have hl' : l = l0 ∨ l ∈ okLines (drainGo cap n s' buf') := by
          simpa [okLines] using hl
        rcases hl' with heq | htail
        · exact heq ▸ hb.2 l0 rfl
        · exact ih s' buf' hb.1 l htail
      | error e =>
        have hl' : l ∈ okLines (drainGo cap n s' buf') := by
          simpa [okLines] using hl
        exact ih s' buf' hb.1 l hl'

/-- C1: every completed line produced by the 512-byte `MessageReader`, over an
arbitrary input byte stream, has length at most 512 (in fact below 512): a
byte that would reach the capacity raises `MessageTooLong` instead of being
emitted as part of a line. -/
theorem C1_framer_line_length (buf l : List Nat)
    (h : l ∈ okLines (drainFrom 512 ReaderState.init buf)) : l.length ≤ 512 := by
  have hb := drainGo_ok_bound 512 (by decide) (buf.length + 1) ReaderState.init buf
    (by decide) l (by simpa [drainFrom] using h)
  exact Nat.le_of_lt hb

/-- Witness for C1 on a concrete stream. -/
theorem C1_framer_line_length_witness : ([104, 105] : List Nat).length ≤ 512 :=
  C1_framer_line_length [104, 105, 13, 10] [104, 105] (by decide)

/-- C8 (counterexample): re-encoding the parse of `:a JOIN #c` yields
`:a JOIN :#c` — the final parameter is always re-serialized as a trailing
parameter — which differs from the original line. -/
theorem C8_encode_parse_not_identity :
    (parseMessage (strBytes ":a JOIN #c")).map encodeParsed =
      Except.ok (strBytes ":a JOIN :#c") ∧
    strBytes ":a JOIN :#c" ≠ strBytes ":a JOIN #c" :=
  ⟨rfl, by decide⟩

/-- Helper: the first space of `a ++ 32 :: b` sits right after `a` when `a` is
space-free. -/
theorem posSpace_append_space (a b : List Nat) (h : 32 ∉ a) :
    posSpace (a ++ 32 :: b) = some a.length := by
  induction a with
  | nil => simp [posSpace]
  | cons c cs ih =>
    have hc : c ≠ 32 := fun hc => h (hc ▸ List.mem_cons_self c cs)
    have hcs : 32 ∉ cs := fun hm => h (List.mem_cons_of_mem c hm)
    simp [posSpace, hc, ih hcs]

/-- Helper: searching for `" :"` skips over a space-free block. -/
theorem findSub_skip (a z : List Nat) (h : 32 ∉ a) :
    findSub [32, 58] (a ++ z) = (findSub [32, 58] z).map (· + a.length) := by
  induction a with
  | nil =>
    simp only [List.nil_append, List.length_nil]
    cases findSub [32, 58] z <;> simp
  | cons c cs ih =>
    have hc : c ≠ 32 := fun hc => h (hc ▸ List.mem_cons_self c cs)
    have hcs : 32 ∉ cs := fun hm => h (List.mem_cons_of_mem c hm)
    have hb : (32 == c) = false := beq_eq_false_iff_ne.mpr (Ne.symm hc)
    have hpre : ([32, 58].isPrefixOf (c :: (cs ++ z))) = false := by
      simp [List.isPrefixOf, hb]
    have e1 : findSub [32, 58] ((c :: cs) ++ z) =
        (findSub [32, 58] (cs ++ z)).map (· + 1) := by
      rw [List.cons_append]
      simp [findSub, hpre]
    rw [e1, ih hcs]
    cases findSub [32, 58] z <;> simp <;> omega

/-- Helper: the first `" :"` of the serialized middles followed by the
trailing marker is the marker itself, provided every middle parameter is
non-empty, space-free and does not start with `:`. -/
theorem findSub_marker (mids : List (List Nat)) (t : List Nat)
    (h : ∀ m ∈ mids, m ≠ [] ∧ 32 ∉ m ∧ m.head? ≠ some 58) :
    findSub [32, 58] (midsJoin mids ++ 32 :: 58 :: t) = some (midsJoin mids).length := by
  induction mids with
  | nil => simp [midsJoin, findSub, List.isPrefixOf]
  | cons m ms ih =>
    obtain ⟨hm0, hm32, hm58⟩ := h m (List.mem_cons_self m ms)
    have hms := fun x hx => h x (List.mem_cons_of_mem m hx)
    rcases m with _ | ⟨mh, mt⟩
    · exact absurd rfl hm0
    · have hmh : mh ≠ 58 := by
        intro he
        exact hm58 (by simp [he])
      have hb : (58 == mh) = false := beq_eq_false_iff_ne.mpr (Ne.symm hmh)
      have hpre : ([32, 58].isPrefixOf
          (32 :: ((mh :: mt) ++ (midsJoin ms ++ 32 :: 58 :: t)))) = false := by
        simp [List.isPrefixOf, hb]
      have hskip := findSub_skip (mh :: mt) (midsJoin ms ++ 32 :: 58 :: t) hm32
      have hjoin : midsJoin ((mh :: mt) :: ms) ++ 32 :: 58 :: t =
          32 :: ((mh :: mt) ++ (midsJoin ms ++ 32 :: 58 :: t)) := by
        simp [midsJoin]
      rw [hjoin]
      have e0 : findSub [32, 58] (32 :: ((mh :: mt) ++ (midsJoin ms ++ 32 :: 58 :: t))) =
          if [32, 58].isPrefixOf (32 :: ((mh :: mt) ++ (midsJoin ms ++ 32 :: 58 :: t)))
          then some 0
          else (findSub [32, 58] ((mh :: mt) ++ (midsJoin ms ++ 32 :: 58 :: t))).map (· + 1) :=
        rfl
      have e1 : findSub [32, 58] (32 :: ((mh :: mt) ++ (midsJoin ms ++ 32 :: 58 :: t))) =
          (findSub [32, 58] ((mh :: mt) ++ (midsJoin ms ++ 32 :: 58 :: t))).map (· + 1) := by
        rw [e0, hpre]
        simp
      rw [e1, hskip, ih hms]
      simp [midsJoin]
      omega

/-- Helper: splitting a space-free block followed by anything extends the
first piece of the split of the rest. -/
theorem splitSpace_append (a z : List Nat) (h : 32 ∉ a) :
    ∀ hh tt, splitSpace z = hh :: tt → splitSpace (a ++ z) = (a ++ hh) :: tt := by
  induction a with
  | nil => intro hh tt hz; simpa using hz
  | cons c cs ih =>
    intro hh tt hz
    have hc : c ≠ 32 := fun hc => h (hc ▸ List.mem_cons_self c cs)
    have hcs : 32 ∉ cs := fun hm => h (List.mem_cons_of_mem c hm)
    rw [List.cons_append]
    simp only [splitSpace, if_neg hc, List.append_eq]
    rw [ih hcs hh tt hz]
    simp

/-- Helper: the split of the serialized middles is an empty first piece (from
the leading space) followed by the middles themselves. -/
theorem splitSpace_midsJoin (mids : List (List Nat)) (h : ∀ m ∈ mids, 32 ∉ m) :
    splitSpace (midsJoin mids) = [] :: mids := by
  induction mids with
  | nil => rfl
  | cons m ms ih =>
    have hm := h m (List.mem_cons_self m ms)
    have hms := fun x hx => h x (List.mem_cons_of_mem m hx)
    have hjoin : midsJoin (m :: ms) = 32 :: (m ++ midsJoin ms) := by simp [midsJoin]
    rw [hjoin]
    simp only [splitSpace, if_pos rfl]
    rw [splitSpace_append m (midsJoin ms) hm [] ms (ih hms)]
    simp

/-- Helper: extracting a stored byte range that covers exactly a middle block
of the buffer returns that block. -/
theorem sliceR_of_concat (buf A m B : List Nat) (i j : Nat)
    (hbuf : buf = A ++ m ++ B) (hi : i = A.length) (hj : j = A.length + m.length) :
    sliceR buf (i, j) = m := by
  subst hbuf hi hj
  simp only [sliceR]
  rw [show A ++ m ++ B = A ++ (m ++ B) from by simp]
  rw [List.drop_left, Nat.add_sub_cancel_left]
  exact List.take_left m B

/-- Helper: the ranges collected by the parameter loop slice back to exactly
the middle parameters, for any buffer that embeds their serialization. -/
theorem paramRanges_slices (ms : List (List Nat)) :
    ∀ (buf pre suf : List Nat) (start : Nat), (∀ m ∈ ms, m ≠ []) →
      buf = pre ++ midsJoin ms ++ suf → start = pre.length + 1 →
      (paramRanges start ms).map (sliceR buf) = ms := by
  induction ms with
  | nil =>
    intro buf pre suf start _ _ _
    simp [paramRanges]
  | cons m ms ih =>
    intro buf pre suf start hne hbuf hstart
    have hm0 : m ≠ [] := hne m (List.mem_cons_self m ms)
    have hms : ∀ x ∈ ms, x ≠ [] := fun x hx => hne x (List.mem_cons_of_mem m hx)
    have hneq : start ≠ start + m.length := by
      intro he
      exact hm0 (List.length_eq_zero.mp (by omega))
    have e0 : paramRanges start (m :: ms) =
        if start ≠ start + m.length then
          (start, start + m.length) :: paramRanges (start + m.length + 1) ms
        else paramRanges (start + m.length + 1) ms := rfl
    rw [e0, if_pos hneq, List.map_cons]
    have h1 : sliceR buf (start, start + m.length) = m :=
      sliceR_of_concat buf (pre ++ [32]) m (midsJoin ms ++ suf) start (start + m.length)
        (by rw [hbuf]; simp [midsJoin]) (by simp [hstart]) (by simp [hstart])
    have h2 : (paramRanges (start + m.length + 1) ms).map (sliceR buf) = ms :=
      ih buf (pre ++ 32 :: m) suf (start + m.length + 1) hms
        (by rw [hbuf]; simp [midsJoin])
        (by subst hstart; simp; omega)
    rw [h1, h2]

/-- Helper: the `push_tail` serialization of middles plus a final trailing
parameter is the space-joined middles followed by the `" :"` marker. -/
theorem tailSer_mids (mids : List (List Nat)) (t : List Nat) :
    tailSer (mids ++ [t]) = midsJoin mids ++ 32 :: 58 :: t := by
  induction mids with
  | nil => rfl
  | cons m ms ih =>
    cases ms with
    | nil => simp [tailSer, midsJoin]
    | cons m2 ms2 =>
      have e0 : tailSer ((m :: m2 :: ms2) ++ [t]) =
          32 :: m ++ tailSer ((m2 :: ms2) ++ [t]) := rfl
      rw [e0, ih]
      simp [midsJoin]

/-- C8 (amended): for any line in canonical form — a `:`-prefix block, a
space-free ASCII command, space-free middle parameters none of which is empty
or starts with `:`, and a trailing parameter introduced by `" :"` — parsing
recovers exactly the prefix, command and parameters, and re-encoding the
parsed message via the `build_msg`/`push_tail` scheme reproduces the original
line byte for byte (CRLF is stripped before parsing and appended after
encoding, so the comparison is up to CRLF). -/
theorem C8_roundtrip_canonical (p cmd t : List Nat) (mids : List (List Nat))
    (hp : 32 ∉ p)
    (hc32 : 32 ∉ cmd)
    (hca : isAsciiBytes cmd = true)
    (hm : ∀ m ∈ mids, m ≠ [] ∧ 32 ∉ m ∧ m.head? ≠ some 58) :
    ∃ msg : PMessage,
      parseMessage (58 :: p ++ 32 :: cmd ++ midsJoin mids ++ 32 :: 58 :: t) =
        Except.ok msg ∧
      pfxBytes msg = some p ∧
      cmdBytes msg = cmd ∧
      paramsBytes msg = mids ++ [t] ∧
      encodeParsed msg = 58 :: p ++ 32 :: cmd ++ midsJoin mids ++ 32 :: 58 :: t := by
  have hps : posSpace (58 :: p ++ 32 :: cmd ++ midsJoin mids ++ 32 :: 58 :: t) =
      some (p.length + 1) := by
    have h1 : 32 ∉ 58 :: p := by
      intro hmem
      rcases List.mem_cons.mp hmem with h' | h'
      · omega
      · exact hp h'
    have h2 := posSpace_append_space (58 :: p)
      (cmd ++ midsJoin mids ++ 32 :: 58 :: t) h1
    simpa using h2
  have e2 : parseMessage (58 :: p ++ 32 :: cmd ++ midsJoin mids ++ 32 :: 58 :: t) =
      parseCore (58 :: p ++ 32 :: cmd ++ midsJoin mids ++ 32 :: 58 :: t)
        (some (0 + 1, 0 + (p.length + 1)))
        ((58 :: p ++ 32 :: cmd ++ midsJoin mids ++ 32 :: 58 :: t).drop (p.length + 1 + 1)) := by
    have d1 : parseMessage (58 :: p ++ 32 :: cmd ++ midsJoin mids ++ 32 :: 58 :: t) =
        parseAfterTags (58 :: p ++ 32 :: cmd ++ midsJoin mids ++ 32 :: 58 :: t) 0
          (58 :: p ++ 32 :: cmd ++ midsJoin mids ++ 32 :: 58 :: t) := rfl
    rw [d1]
    unfold parseAfterTags
    rw [hps]
    rfl
  have e3 : (58 :: p ++ 32 :: cmd ++ midsJoin mids ++ 32 :: 58 :: t).drop (p.length + 1 + 1) =
      cmd ++ midsJoin mids ++ 32 :: 58 :: t := by
    have hA : (58 :: p ++ [32] : List Nat).length = p.length + 1 + 1 := by simp
    rw [show 58 :: p ++ 32 :: cmd ++ midsJoin mids ++ 32 :: 58 :: t =
        (58 :: p ++ [32]) ++ (cmd ++ midsJoin mids ++ 32 :: 58 :: t) from by simp]
    rw [← hA, List.drop_left]
  have hfs : findSub [32, 58] (cmd ++ midsJoin mids ++ 32 :: 58 :: t) =
      some ((midsJoin mids).length + cmd.length) := by
    rw [List.append_assoc]
    rw [findSub_skip cmd (midsJoin mids ++ 32 :: 58 :: t) hc32, findSub_marker mids t hm]
    simp
  have htake : (cmd ++ midsJoin mids ++ 32 :: 58 :: t).take
      ((midsJoin mids).length + cmd.length) = cmd ++ midsJoin mids := by
    have hl : (midsJoin mids).length + cmd.length = (cmd ++ midsJoin mids).length := by
      simp [Nat.add_comm]
    rw [hl, show cmd ++ midsJoin mids ++ 32 :: 58 :: t =
        (cmd ++ midsJoin mids) ++ 32 :: 58 :: t from by simp]
    exact List.take_left _ _
  have hsplit : splitSpace (cmd ++ midsJoin mids) = cmd :: mids := by
    have h1 := splitSpace_append cmd (midsJoin mids) hc32 [] mids
      (splitSpace_midsJoin mids fun m hm' => (hm m hm').2.1)
    simpa using h1
  rw [e2, e3]
  unfold parseCore
  simp only [hfs, htake, hsplit, hca]
  refine ⟨_, rfl, ?_, ?_, ?_, ?_⟩
  · simp only [pfxBytes, Option.map]
    rw [sliceR_of_concat (58 :: p ++ 32 :: cmd ++ midsJoin mids ++ 32 :: 58 :: t)
      [58] p (32 :: cmd ++ midsJoin mids ++ 32 :: 58 :: t) _ _
      (by simp) (by simp) (by simp <;> omega)]
  · simp only [cmdBytes]
    exact sliceR_of_concat (58 :: p ++ 32 :: cmd ++ midsJoin mids ++ 32 :: 58 :: t)
      (58 :: p ++ [32]) cmd (midsJoin mids ++ 32 :: 58 :: t) _ _
      (by simp) (by simp <;> omega) (by simp <;> omega)
  · simp only [paramsBytes, List.map_append]
    rw [paramRanges_slices mids (58 :: p ++ 32 :: cmd ++ midsJoin mids ++ 32 :: 58 :: t)
      (58 :: p ++ 32 :: cmd) (32 :: 58 :: t) _ (fun m hm' => (hm m hm').1)
      (by simp) (by simp <;> omega)]
    rw [List.map_cons, List.map_nil]
    rw [sliceR_of_concat (58 :: p ++ 32 :: cmd ++ midsJoin mids ++ 32 :: 58 :: t)
      (58 :: p ++ 32 :: cmd ++ midsJoin mids ++ [32, 58]) t [] _ _
      (by simp) (by simp <;> omega) (by simp <;> omega)]
  · simp only [encodeParsed, pfxBytes, cmdBytes, paramsBytes, Option.map, Option.getD,
      List.map_append, List.map_cons, List.map_nil]
    rw [sliceR_of_concat (58 :: p ++ 32 :: cmd ++ midsJoin mids ++ 32 :: 58 :: t)
      [58] p (32 :: cmd ++ midsJoin mids ++ 32 :: 58 :: t) _ _
      (by simp) (by simp) (by simp <;> omega)]
    rw [sliceR_of_concat (58 :: p ++ 32 :: cmd ++ midsJoin mids ++ 32 :: 58 :: t)
      (58 :: p ++ [32]) cmd (midsJoin mids ++ 32 :: 58 :: t) _ _
      (by simp) (by simp <;> omega) (by simp <;> omega)]
    rw [paramRanges_slices mids (58 :: p ++ 32 :: cmd ++ midsJoin mids ++ 32 :: 58 :: t)
      (58 :: p ++ 32 :: cmd) (32 :: 58 :: t) _ (fun m hm' => (hm m hm').1)
      (by simp) (by simp <;> omega)]
    rw [sliceR_of_concat (58 :: p ++ 32 :: cmd ++ midsJoin mids ++ 32 :: 58 :: t)
      (58 :: p ++ 32 :: cmd ++ midsJoin mids ++ [32, 58]) t [] _ _
      (by simp) (by simp <;> omega) (by simp <;> omega)]
    rw [show mids ++ [t] = mids ++ [t] from rfl]
    simp [buildMsg, pushTail, tailSer_mids]

/-- Witness for C8 (amended) at the concrete line `:nick PRIVMSG #chan :hello world`. -/
theorem C8_roundtrip_canonical_witness :
    ∃ msg : PMessage,
      parseMessage (58 :: strBytes "nick" ++ 32 :: strBytes "PRIVMSG" ++
          midsJoin [strBytes "#chan"] ++ 32 :: 58 :: strBytes "hello world") =
        Except.ok msg ∧
      pfxBytes msg = some (strBytes "nick") ∧
      cmdBytes msg = strBytes "PRIVMSG" ∧
      paramsBytes msg = [strBytes "#chan"] ++ [strBytes "hello world"] ∧
      encodeParsed msg = 58 :: strBytes "nick" ++ 32 :: strBytes "PRIVMSG" ++
          midsJoin [strBytes "#chan"] ++ 32 :: 58 :: strBytes "hello world" :=
  C8_roundtrip_canonical (strBytes "nick") (strBytes "PRIVMSG") (strBytes "hello world")
    [strBytes "#chan"] (by decide) (by decide) (by decide) (by decide)

end Rauta
